import Mathlib

/-!
Verification of `library/include/ck/library/reference_tensor_operation/cpu/reference_layernorm.hpp`
(`ck::tensor_operation::host::ReferenceLayernorm`).

The operator is a C++ template over the storage types
`XDataType, GammaDataType, BetaDataType, YDataType, SaveMeanInvStdDataType`
and a `ComputeDataType` in which all arithmetic happens, plus a
`YElementwiseOperation` post-op.  We embed it shallowly:

* tensors become total functions from indices to elements (the host `Tensor`
  collaborator is only read/written elementwise by this operator);
* each storage type becomes a Lean type parameter, and each
  `ck::type_convert<A>(b)` call site becomes an explicit conversion-function
  parameter (the embedding is parametric in the conversions exactly as the
  template is parametric in the types);
* `ComputeDataType` becomes an arbitrary `LinearOrderedField` together with an
  explicit `sqrt` function standing for `ck::math::sqrt`;
* the two nested `for` loops of `Invoker::Run` become `List.foldl` over
  `List.range`, threading the mutable state (the tensors the `Argument` holds
  by reference: `y_m_n_`, `save_mean_m_`, `save_inv_std_m_`).
-/

namespace RefLayernorm

/-- Pointwise update of a 1-index tensor (models `t(i) = v`). -/
def upd1 {α : Type} (f : Nat → α) (i : Nat) (v : α) : Nat → α :=
  fun a => if a = i then v else f a

/-- Pointwise update of a 2-index tensor (models `t(i, j) = v`). -/
def upd2 {α : Type} (f : Nat → Nat → α) (i j : Nat) (v : α) : Nat → Nat → α :=
  fun a b => if a = i ∧ b = j then v else f a b

/-- The `Argument` struct of `ReferenceLayernorm` (reference_layernorm.hpp,
lines 34-70).  Two `Argument` values are equal when all fields are equal.  `x_m_n_`, `gamma_n_`, `beta_n_` are `const` copies held by
value; note that in the source all three members are declared with element
type `XDataType` (lines 59-61), even though the constructor receives
`gamma_n` as `Tensor<GammaDataType>` and `beta_n` as `Tensor<BetaDataType>`.
`y_m_n_`, `save_mean_m_`, `save_inv_std_m_` are references to caller-owned
tensors; their fields here hold the current contents of those tensors, and
`Invoker::Run` returns the updated `Argument` to model the writes through
those references. -/
@[ext]
structure Argument (X Y S C : Type) where
  x_m_n : Nat → Nat → X
  gamma_n : Nat → X
  beta_n : Nat → X
  y_m_n : Nat → Nat → Y
  save_mean_m : Nat → S
  save_inv_std_m : Nat → S
  y_elementwise_op : C → C
  lengths : List Int
  reduceDims : List Int
  epsilon : C

variable {X Y S C : Type}

/-- Replace the contents of the referenced output tensor `y_m_n_`. -/
def setY (a : Argument X Y S C) (f : Nat → Nat → Y) : Argument X Y S C :=
  ⟨a.x_m_n, a.gamma_n, a.beta_n, f, a.save_mean_m, a.save_inv_std_m,
   a.y_elementwise_op, a.lengths, a.reduceDims, a.epsilon⟩

/-- Replace the contents of the referenced tensors `save_mean_m_` and
`save_inv_std_m_`. -/
def setSaves (a : Argument X Y S C) (sm si : Nat → S) : Argument X Y S C :=
  ⟨a.x_m_n, a.gamma_n, a.beta_n, a.y_m_n, sm, si,
   a.y_elementwise_op, a.lengths, a.reduceDims, a.epsilon⟩

/-- `int M = arg.lengths_[0]` (line 76). -/
def Mof (a : Argument X Y S C) : Int := a.lengths.getD 0 0

/-- `int N = arg.lengths_[1]` (line 77). -/
def Nof (a : Argument X Y S C) : Int := a.lengths.getD 1 0

section Run

variable [LinearOrderedField C]

/-- The pass-1 inner loop for one row (lines 87-92): starting from
`mean(m) = 0; var(m) = 0`, accumulate `mean(m) += x_val` and
`var(m) += x_val * x_val` for `n = 0 .. k-1`, where
`x_val = ck::type_convert<ComputeDataType>(arg.x_m_n_(m, n))`.
Returns the pair (running sum, running sum of squares), both in compute
precision. -/
def rowAccum (convXC : X → C) (a : Argument X Y S C) (m k : Nat) : C × C :=
  (List.range k).foldl
    (fun acc n =>
      let x_val := convXC (a.x_m_n m n)
      (acc.1 + x_val, acc.2 + x_val * x_val))
    (0, 0)

/-- `mean(m) = mean(m) / N` (line 94); the loop ran `N` times where
`N = arg.lengths_[1]` (nonpositive `N` runs the loop zero times). -/
def meanOf (convXC : X → C) (a : Argument X Y S C) (m : Nat) : C :=
  (rowAccum convXC a m (Nof a).toNat).1 / ((Nof a : Int) : C)

/-- `var(m) = (var(m) / N) - (mean(m) * mean(m))` (line 95). -/
def varOf (convXC : X → C) (a : Argument X Y S C) (m : Nat) : C :=
  (rowAccum convXC a m (Nof a).toNat).2 / ((Nof a : Int) : C)
    - meanOf convXC a m * meanOf convXC a m

/-- `divisor = 1 / ck::math::sqrt(var(m) + arg.epsilon_)` (lines 100-101). -/
def divisorOf (convXC : X → C) (sqrt : C → C) (a : Argument X Y S C) (m : Nat) : C :=
  1 / sqrt (varOf convXC a m + a.epsilon)

/-- The compute-precision value written to `y` at `(m, n)` (lines 105-111):
`x_val`, `gamma_val`, `beta_val` are read through
`ck::type_convert<ComputeDataType>` from the `Argument` members (all of
element type `XDataType`, lines 59-61);
`y_val = (x_val - mean(m)) * divisor`; `y_val = y_val * gamma_val + beta_val`;
`arg.y_elementwise_op_(y_val, y_val)`. -/
def yValOf (convXC : X → C) (sqrt : C → C) (a : Argument X Y S C) (m n : Nat) : C :=
  let x_val := convXC (a.x_m_n m n)
  let gamma_val := convXC (a.gamma_n n)
  let beta_val := convXC (a.beta_n n)
  let y_val := (x_val - meanOf convXC a m) * divisorOf convXC sqrt a m
  a.y_elementwise_op (y_val * gamma_val + beta_val)

/-- One iteration of the pass-2 inner loop (lines 103-112): write the
converted value to `arg.y_m_n_(m, n)`.  The values are computed from the
`const` input copies of the original argument `a`; only the referenced
output tensor in the threaded state `b` changes. -/
def innerStep (convXC : X → C) (convCY : C → Y) (sqrt : C → C)
    (a : Argument X Y S C) (m : Nat) (b : Argument X Y S C) (n : Nat) :
    Argument X Y S C :=
  setY b (upd2 b.y_m_n m n (convCY (yValOf convXC sqrt a m n)))

/-- One iteration of the pass-2 outer loop (lines 98-115): run the inner
loop over the columns, then write `save_mean_m_(m)` and
`save_inv_std_m_(m)` (lines 113-114).  The per-row statistics `mean(m)` and
`var(m)` were produced by pass 1 (lines 82-96) before pass 2 starts; they
are functions of the `const` input copies only, so reading them here via
`meanOf` and `divisorOf` is the same values pass 1 stored. -/
def outerStep (convXC : X → C) (convCY : C → Y) (convCS : C → S) (sqrt : C → C)
    (a : Argument X Y S C) (b : Argument X Y S C) (m : Nat) :
    Argument X Y S C :=
  let b2 := (List.range (Nof a).toNat).foldl (innerStep convXC convCY sqrt a m) b
  setSaves b2 (upd1 b2.save_mean_m m (convCS (meanOf convXC a m)))
    (upd1 b2.save_inv_std_m m (convCS (divisorOf convXC sqrt a m)))

/-- `Invoker::Run(const Argument&)` (lines 74-118): the two passes over the
rows, then `return 0`.  The first component is the argument with its
referenced output tensors updated; the second is the returned metric. -/
def Run (convXC : X → C) (convCY : C → Y) (convCS : C → S) (sqrt : C → C)
    (a : Argument X Y S C) : Argument X Y S C × C :=
  ((List.range (Mof a).toNat).foldl
      (outerStep convXC convCY convCS sqrt a) a, 0)

end Run

/-- `IsSupportedArgument` (lines 133-148), after the downcast succeeded:
reject unless `lengths_.size() == 2`, `reduceDims_.size() == 1` and
`reduceDims_[0] == 1`. -/
def IsSupportedArgument (a : Argument X Y S C) : Bool :=
  if a.lengths.length ≠ 2 then false
  else if a.reduceDims.length ≠ 1 then false
  else if a.reduceDims.getD 0 0 ≠ 1 then false
  else true

/-- `device::BaseArgument`: the polymorphic base-class handle.  A pointer of
the base type either refers to this operator's own `Argument` or to some
other operator's concrete argument type. -/
inductive BaseArgument (X Y S C : Type) : Type where
  | ofArgument : Argument X Y S C → BaseArgument X Y S C
  | otherConcrete : BaseArgument X Y S C

/-- `dynamic_cast<const Argument*>(p_arg)`: succeeds exactly when the handle
refers to this operator's `Argument`; yields a null pointer (`none`)
otherwise. -/
def dynCastArgument : BaseArgument X Y S C → Option (Argument X Y S C)
  | BaseArgument.ofArgument a => some a
  | BaseArgument.otherConcrete => none

/-- The polymorphic overload `Invoker::Run(const device::BaseArgument*)`
(lines 120-124): `return Run(*dynamic_cast<const Argument*>(p_arg));` with
no null check.  Dereferencing the null result of a failed cast is undefined
behavior in the source; the embedding renders that branch as `none`
(no defined result), while a successful cast runs the typed overload. -/
def RunPoly [LinearOrderedField C] (convXC : X → C) (convCY : C → Y)
    (convCS : C → S) (sqrt : C → C) (p : BaseArgument X Y S C) :
    Option (Argument X Y S C × C) :=
  (dynCastArgument p).map (Run convXC convCY convCS sqrt)

/-- `IsSupportedArgument(const device::BaseArgument*)` (lines 133-148):
`dynamic_cast` then member access `p_arg_->lengths_` with no null check.
A failed cast makes the member access undefined behavior, rendered as
`none`; a successful cast gives the shape predicate's boolean. -/
def IsSupportedArgumentPoly (p : BaseArgument X Y S C) : Option Bool :=
  (dynCastArgument p).map IsSupportedArgument

/-- Modelled from the spec: the host `Tensor` collaborator
(`host_tensor.hpp`, not under `src/`) is a multi-dimensional array of its
element type; copy-constructing a `Tensor` of one element type from a
`Tensor` of another converts every element.  The `Argument` constructor
(lines 36-57) initializes the members `gamma_n_` and `beta_n_` - declared
with element type `XDataType` (lines 60-61) - from the caller's
`Tensor<GammaDataType>` and `Tensor<BetaDataType>`, so each scale and shift
element passes through the conversion to `XDataType` here.  `convGX` and
`convBX` stand for those element conversions. -/
def mkArgument {G B : Type} (convGX : G → X) (convBX : B → X)
    (x : Nat → Nat → X) (gamma : Nat → G) (beta : Nat → B)
    (y0 : Nat → Nat → Y) (sm0 : Nat → S) (si0 : Nat → S)
    (op : C → C) (lengths reduceDims : List Int) (eps : C) :
    Argument X Y S C :=
  ⟨x, fun n => convGX (gamma n), fun n => convBX (beta n),
   y0, sm0, si0, op, lengths, reduceDims, eps⟩

/-- The spec's description of the pass-2 element computation: read
`x = input[m,n]` converted to compute precision, and `g = scale[n]`,
`b = shift[n]` each converted to compute precision directly from the
caller's arrays (conversions `convGC`, `convBC`); then
`y = (x - mean) * divisor`, `y = y*g + b`, `y = postOp(y)`.  This follows
the spec's words (a three-point conversion discipline with no intermediate
storage type for scale/shift); it exists to be compared with the source's
`yValOf`. -/
def yValSpecDirect {G B : Type} [LinearOrderedField C]
    (convXC : X → C) (convGC : G → C) (convBC : B → C) (sqrt : C → C)
    (a : Argument X Y S C) (gamma : Nat → G) (beta : Nat → B) (m n : Nat) : C :=
  let x := convXC (a.x_m_n m n)
  let g := convGC (gamma n)
  let b := convBC (beta n)
  let y := (x - meanOf convXC a m) * divisorOf convXC sqrt a m
  a.y_elementwise_op (y * g + b)

/-! ### Characterization of the two loops -/

section Lemmas

variable [LinearOrderedField C]
variable (convXC : X → C) (convCY : C → Y) (convCS : C → S) (sqrt : C → C)

/-- The pass-2 inner loop over the first `k` columns only rewrites row `m`
of the referenced output tensor, at the columns already visited, with the
value of `yValOf`; all other state is untouched. -/
theorem innerFold_eq (a : Argument X Y S C) (m : Nat) :
    ∀ (k : Nat) (b : Argument X Y S C),
      (List.range k).foldl (innerStep convXC convCY sqrt a m) b =
        setY b (fun i j =>
          if i = m ∧ j < k then convCY (yValOf convXC sqrt a m j)
          else b.y_m_n i j) := by
  intro k
  induction k with
  | zero =>
    intro b
    have h : (fun i j =>
        if i = m ∧ j < 0 then convCY (yValOf convXC sqrt a m j)
        else b.y_m_n i j) = b.y_m_n := by
      funext i j; simp
    simp [List.range_zero, List.foldl_nil, h, setY]
  | succ k ih =>
    intro b
    rw [List.range_succ, List.foldl_append, ih b]
    show innerStep convXC convCY sqrt a m _ k = _
    unfold innerStep setY
    apply Argument.ext <;> try rfl
    funext i j
    show upd2 _ m k _ i j = _
    unfold upd2
    by_cases hik : i = m
    · by_cases hjk : j = k
      · simp [hik, hjk]
      · by_cases hj : j < k
        · have hj1 : j < k + 1 := by omega
          simp [hik, hjk, hj, hj1]
        · have hj1 : ¬ j < k + 1 := by omega
          simp [hik, hjk, hj, hj1]
    · simp [hik]

/-- The pass-2 outer loop over the first `M'` rows writes rows `0 .. M'-1`
of the output (at the first `N` columns) and entries `0 .. M'-1` of the two
diagnostic vectors, and leaves everything else in the state untouched. -/
theorem outerFold_eq (a : Argument X Y S C) :
    ∀ (M' : Nat) (b : Argument X Y S C),
      (List.range M').foldl (outerStep convXC convCY convCS sqrt a) b =
        ⟨b.x_m_n, b.gamma_n, b.beta_n,
         fun i j =>
           if i < M' ∧ j < (Nof a).toNat then convCY (yValOf convXC sqrt a i j)
           else b.y_m_n i j,
         fun i => if i < M' then convCS (meanOf convXC a i) else b.save_mean_m i,
         fun i =>
           if i < M' then convCS (divisorOf convXC sqrt a i)
           else b.save_inv_std_m i,
         b.y_elementwise_op, b.lengths, b.reduceDims, b.epsilon⟩ := by
  intro M'
  induction M' with
  | zero =>
    intro b
    simp only [List.range_zero, List.foldl_nil]
    apply Argument.ext <;> rfl
  | succ M' ih =>
    intro b
    rw [List.range_succ, List.foldl_append, ih b]
    show outerStep convXC convCY convCS sqrt a _ M' = _
    unfold outerStep
    rw [innerFold_eq]
    unfold setSaves setY
    apply Argument.ext <;> try rfl
    · funext i j
      show (if i = M' ∧ j < (Nof a).toNat then _ else _) = _
      by_cases hi : i = M'
      · by_cases hj : j < (Nof a).toNat
        · have hi1 : i < M' + 1 := by omega
          have hi2 : ¬ i < M' := by omega
          simp [hi, hj, hi1, hi2]
        · have : (i < M' + 1 ∧ j < (Nof a).toNat) ↔ False := by
            constructor
            · intro hc; exact hj hc.2
            · intro hc; exact hc.elim
          have : (i < M' ∧ j < (Nof a).toNat) ↔ False := by
            constructor
            · intro hc; exact hj hc.2
            · intro hc; exact hc.elim
          simp [hi, hj]
      · by_cases hi1 : i < M'
        · have hi2 : i < M' + 1 := by omega
          simp [hi, hi1, hi2]
        · have hi2 : ¬ i < M' + 1 := by omega
          simp [hi, hi1, hi2]
    · funext i
      show upd1 _ M' _ i = _
      unfold upd1
      by_cases hi : i = M'
      · have hi1 : i < M' + 1 := by omega
        simp [hi, hi1]
      · by_cases hi1 : i < M'
        · have hi2 : i < M' + 1 := by omega
          simp [hi, hi1, hi2]
        · have hi2 : ¬ i < M' + 1 := by omega
          simp [hi, hi1, hi2]
    · funext i
      show upd1 _ M' _ i = _
      unfold upd1
      by_cases hi : i = M'
      · have hi1 : i < M' + 1 := by omega
        simp [hi, hi1]
      · by_cases hi1 : i < M'
        · have hi2 : i < M' + 1 := by omega
          simp [hi, hi1, hi2]
        · have hi2 : ¬ i < M' + 1 := by omega
          simp [hi, hi1, hi2]

/-- Projection of `Run` on the output tensor. -/
theorem Run_y (a : Argument X Y S C) (i j : Nat) :
    (Run convXC convCY convCS sqrt a).1.y_m_n i j =
      if i < (Mof a).toNat ∧ j < (Nof a).toNat
      then convCY (yValOf convXC sqrt a i j)
      else a.y_m_n i j := by
  unfold Run
  rw [outerFold_eq]

/-- Projection of `Run` on the saved-mean vector. -/
theorem Run_saveMean (a : Argument X Y S C) (i : Nat) :
    (Run convXC convCY convCS sqrt a).1.save_mean_m i =
      if i < (Mof a).toNat then convCS (meanOf convXC a i)
      else a.save_mean_m i := by
  unfold Run
  rw [outerFold_eq]

/-- Projection of `Run` on the saved-inverse-std vector. -/
theorem Run_saveInvStd (a : Argument X Y S C) (i : Nat) :
    (Run convXC convCY convCS sqrt a).1.save_inv_std_m i =
      if i < (Mof a).toNat then convCS (divisorOf convXC sqrt a i)
      else a.save_inv_std_m i := by
  unfold Run
  rw [outerFold_eq]

/-- `Run` leaves the argument's input copies and scalar fields untouched. -/
theorem Run_frame (a : Argument X Y S C) :
    (Run convXC convCY convCS sqrt a).1.x_m_n = a.x_m_n ∧
    (Run convXC convCY convCS sqrt a).1.gamma_n = a.gamma_n ∧
    (Run convXC convCY convCS sqrt a).1.beta_n = a.beta_n ∧
    (Run convXC convCY convCS sqrt a).1.y_elementwise_op = a.y_elementwise_op ∧
    (Run convXC convCY convCS sqrt a).1.lengths = a.lengths ∧
    (Run convXC convCY convCS sqrt a).1.reduceDims = a.reduceDims ∧
    (Run convXC convCY convCS sqrt a).1.epsilon = a.epsilon := by
  unfold Run
  rw [outerFold_eq]
  exact ⟨rfl, rfl, rfl, rfl, rfl, rfl, rfl⟩

/-- The metric returned by `Run` is `0`. -/
theorem Run_metric (a : Argument X Y S C) :
    (Run convXC convCY convCS sqrt a).2 = 0 := rfl

/-- The pass-1 accumulators are the finite sums of the converted row
elements and of their squares. -/
theorem rowAccum_eq_sum (a : Argument X Y S C) (m : Nat) :
    ∀ k : Nat,
      rowAccum convXC a m k =
        (∑ n ∈ Finset.range k, convXC (a.x_m_n m n),
         ∑ n ∈ Finset.range k, convXC (a.x_m_n m n) * convXC (a.x_m_n m n)) := by
  intro k
  induction k with
  | zero => simp [rowAccum]
  | succ k ih =>
    unfold rowAccum at ih ⊢
    rw [List.range_succ, List.foldl_append, ih]
    simp [Finset.sum_range_succ]

/-- The pass-1 accumulators only read row `m` of the input: two arguments
whose rows agree (as converted values) on the columns visited produce the
same accumulators. -/
theorem rowAccum_congr (a1 a2 : Argument X Y S C) (m1 m2 : Nat)
    (k : Nat) (h : ∀ n, n < k → convXC (a2.x_m_n m2 n) = convXC (a1.x_m_n m1 n)) :
    rowAccum convXC a2 m2 k = rowAccum convXC a1 m1 k := by
  rw [rowAccum_eq_sum, rowAccum_eq_sum]
  have h1 : ∑ n ∈ Finset.range k, convXC (a2.x_m_n m2 n) =
      ∑ n ∈ Finset.range k, convXC (a1.x_m_n m1 n) := by
    apply Finset.sum_congr rfl
    intro n hn
    exact h n (Finset.mem_range.mp hn)
  have h2 : ∑ n ∈ Finset.range k, convXC (a2.x_m_n m2 n) * convXC (a2.x_m_n m2 n) =
      ∑ n ∈ Finset.range k, convXC (a1.x_m_n m1 n) * convXC (a1.x_m_n m1 n) := by
    apply Finset.sum_congr rfl
    intro n hn
    rw [h n (Finset.mem_range.mp hn)]
  rw [h1, h2]

end Lemmas

/-- With a two-entry length list the outer extent is its first entry. -/
theorem Mof_toNat (a : Argument X Y S C) (M N : Nat)
    (hL : a.lengths = [(M : Int), (N : Int)]) : (Mof a).toNat = M := by
  simp [Mof, hL]

/-- With a two-entry length list the reduced extent is its second entry. -/
theorem Nof_toNat (a : Argument X Y S C) (M N : Nat)
    (hL : a.lengths = [(M : Int), (N : Int)]) : (Nof a).toNat = N := by
  simp [Nof, hL]

/-- The reduced extent, cast into compute precision. -/
theorem Nof_cast [LinearOrderedField C] (a : Argument X Y S C) (M N : Nat)
    (hL : a.lengths = [(M : Int), (N : Int)]) : ((Nof a : Int) : C) = (N : C) := by
  simp [Nof, hL]

/-! ### Concrete instances used to witness the theorems -/

/-- A concrete rational argument: shape (2, 2), reduce over axis 1,
`x = [[1, 3], [2, 4]]`, scale all ones, shift all zeros, identity post-op,
`epsilon = 1/4`; output and diagnostic tensors initially filled with `9`. -/
def qArg : Argument ℚ ℚ ℚ ℚ :=
  ⟨fun m n => (m : ℚ) + 2 * n + 1, fun _ => 1, fun _ => 0,
   fun _ _ => 9, fun _ => 9, fun _ => 9, id, [2, 2], [1], 1/4⟩

/-- A concrete rational argument with zero rows: shape (0, 5). -/
def qArgZeroRows : Argument ℚ ℚ ℚ ℚ :=
  ⟨fun _ _ => 3, fun _ => 1, fun _ => 0,
   fun _ _ => 9, fun _ => 9, fun _ => 9, id, [0, 5], [1], 1/4⟩

/-! ### The claims -/

/-- C4: `IsSupportedArgument` returns `true` exactly when the shape
description has rank 2 and the reduced-axis list is exactly `[1]` (the last
axis); every other configuration yields `false`.  (The embedding of the
predicate is a pure function, so it has no side effects by construction.) -/
theorem claim_C4_validator_iff (a : Argument X Y S C) :
    IsSupportedArgument a = true ↔
      a.lengths.length = 2 ∧ a.reduceDims = [1] := by
  unfold IsSupportedArgument
  constructor
  · intro h
    split_ifs at h with h1 h2 h3
    push_neg at h1 h2 h3
    refine ⟨h1, ?_⟩
    obtain ⟨d, hd⟩ := List.length_eq_one.mp h2
    rw [hd]
    rw [hd] at h3
    simp only [List.getD_cons_zero] at h3
    rw [h3]
  · intro h
    obtain ⟨h1, h2⟩ := h
    simp [h1, h2]

/-- C9: with a declared shape of `(0, N)` rows, `Run` performs no writes at
all - the argument's referenced tensors are returned unchanged - and the
returned metric is `0`. -/
theorem claim_C9_zero_rows [LinearOrderedField C]
    (convXC : X → C) (convCY : C → Y) (convCS : C → S) (sqrt : C → C)
    (a : Argument X Y S C) (n : Int) (h : a.lengths = [0, n]) :
    Run convXC convCY convCS sqrt a = (a, 0) := by
  unfold Run
  have hM : Mof a = 0 := by simp [Mof, h]
  rw [hM]
  simp

/-- Witness for C9 at a concrete argument of shape (0, 5). -/
theorem claim_C9_witness :
    qArgZeroRows.lengths = [0, 5] ∧
    Run (id : ℚ → ℚ) id id id qArgZeroRows = (qArgZeroRows, 0) :=
  ⟨rfl, claim_C9_zero_rows id id id id qArgZeroRows 5 rfl⟩

/-- C2: pass 1 computes, for every row of an argument with `N ≥ 1` columns,
the mean as (running sum of the converted elements) / N and the variance by
the uncentered formula (running sum of squares) / N - mean * mean, both
accumulated in compute precision (the accumulators of `rowAccum` live in
`C`).  The variance is literally the "sum of squares minus square of mean"
expression, exactly as on line 95 of the source. -/
theorem claim_C2_pass1 [LinearOrderedField C] (convXC : X → C)
    (a : Argument X Y S C) (M N : Nat)
    (hL : a.lengths = [(M : Int), (N : Int)]) (hN : 1 ≤ N) (m : Nat) :
    meanOf convXC a m = (∑ n ∈ Finset.range N, convXC (a.x_m_n m n)) / (N : C) ∧
    varOf convXC a m =
      (∑ n ∈ Finset.range N, convXC (a.x_m_n m n) * convXC (a.x_m_n m n)) / (N : C)
        - ((∑ n ∈ Finset.range N, convXC (a.x_m_n m n)) / (N : C))
          * ((∑ n ∈ Finset.range N, convXC (a.x_m_n m n)) / (N : C)) := by
  have hmean : meanOf convXC a m =
      (∑ n ∈ Finset.range N, convXC (a.x_m_n m n)) / (N : C) := by
    unfold meanOf
    rw [rowAccum_eq_sum, Nof_toNat a M N hL, Nof_cast a M N hL]
  refine ⟨hmean, ?_⟩
  unfold varOf
  rw [rowAccum_eq_sum, Nof_toNat a M N hL, Nof_cast a M N hL, hmean]

/-- Witness for C2 at the concrete rational argument `qArg`: row 0 is
`[1, 3]`, so the mean is 2 and the uncentered variance is
`(1 + 9)/2 - 4 = 1`. -/
theorem claim_C2_witness :
    qArg.lengths = [(2 : Int), (2 : Int)] ∧ 1 ≤ 2 ∧
    (meanOf (id : ℚ → ℚ) qArg 0 =
        (∑ n ∈ Finset.range 2, id (qArg.x_m_n 0 n)) / (2 : ℚ) ∧
      varOf (id : ℚ → ℚ) qArg 0 =
        (∑ n ∈ Finset.range 2, id (qArg.x_m_n 0 n) * id (qArg.x_m_n 0 n)) / (2 : ℚ)
          - ((∑ n ∈ Finset.range 2, id (qArg.x_m_n 0 n)) / (2 : ℚ))
            * ((∑ n ∈ Finset.range 2, id (qArg.x_m_n 0 n)) / (2 : ℚ))) ∧
    meanOf (id : ℚ → ℚ) qArg 0 = 2 ∧ varOf (id : ℚ → ℚ) qArg 0 = 1 := by
  refine ⟨rfl, by norm_num, claim_C2_pass1 id qArg 2 2 rfl (by norm_num) 0, ?_, ?_⟩
  · norm_num [meanOf, rowAccum, Nof, qArg,
      show List.range (Int.toNat 2) = [0, 1] from rfl, List.foldl]
  · norm_num [varOf, meanOf, rowAccum, Nof, qArg,
      show List.range (Int.toNat 2) = [0, 1] from rfl, List.foldl]

/-- C3: for every validator-accepted argument with `N ≥ 1` and every row
`m < M`, after `Run` the saved mean is the arithmetic mean of the converted
row and the saved inverse standard deviation is `1 / sqrt(variance +
epsilon)` with the variance given by the uncentered formula on the same
row; both are passed through the diagnostic storage conversion `convCS` on
write. -/
theorem claim_C3_diagnostics [LinearOrderedField C]
    (convXC : X → C) (convCY : C → Y) (convCS : C → S) (sqrt : C → C)
    (a : Argument X Y S C) (M N : Nat)
    (hL : a.lengths = [(M : Int), (N : Int)])
    (hsup : IsSupportedArgument a = true) (hN : 1 ≤ N)
    (m : Nat) (hm : m < M) :
    (Run convXC convCY convCS sqrt a).1.save_mean_m m =
      convCS ((∑ n ∈ Finset.range N, convXC (a.x_m_n m n)) / (N : C)) ∧
    (Run convXC convCY convCS sqrt a).1.save_inv_std_m m =
      convCS (1 / sqrt
        ((∑ n ∈ Finset.range N, convXC (a.x_m_n m n) * convXC (a.x_m_n m n)) / (N : C)
          - ((∑ n ∈ Finset.range N, convXC (a.x_m_n m n)) / (N : C))
            * ((∑ n ∈ Finset.range N, convXC (a.x_m_n m n)) / (N : C))
          + a.epsilon)) := by
  have hMm : m < (Mof a).toNat := by rw [Mof_toNat a M N hL]; exact hm
  constructor
  · rw [Run_saveMean, if_pos hMm]
    unfold meanOf
    rw [rowAccum_eq_sum, Nof_toNat a M N hL, Nof_cast a M N hL]
  · rw [Run_saveInvStd, if_pos hMm]
    unfold divisorOf varOf meanOf
    rw [rowAccum_eq_sum, Nof_toNat a M N hL, Nof_cast a M N hL]

/-- Witness for C3 at `qArg` with `sqrt` instantiated as the identity: the
saved mean of row 0 is 2 and the saved inverse std is
`1 / (1 + 1/4) = 4/5`. -/
theorem claim_C3_witness :
    qArg.lengths = [(2 : Int), (2 : Int)] ∧
    IsSupportedArgument qArg = true ∧ 1 ≤ 2 ∧ 0 < 2 ∧
    ((Run (id : ℚ → ℚ) id id id qArg).1.save_mean_m 0 =
        id ((∑ n ∈ Finset.range 2, id (qArg.x_m_n 0 n)) / (2 : ℚ)) ∧
      (Run (id : ℚ → ℚ) id id id qArg).1.save_inv_std_m 0 =
        id (1 / id
          ((∑ n ∈ Finset.range 2, id (qArg.x_m_n 0 n) * id (qArg.x_m_n 0 n)) / (2 : ℚ)
            - ((∑ n ∈ Finset.range 2, id (qArg.x_m_n 0 n)) / (2 : ℚ))
              * ((∑ n ∈ Finset.range 2, id (qArg.x_m_n 0 n)) / (2 : ℚ))
            + qArg.epsilon))) ∧
    (Run (id : ℚ → ℚ) id id id qArg).1.save_mean_m 0 = 2 ∧
    (Run (id : ℚ → ℚ) id id id qArg).1.save_inv_std_m 0 = 4/5 := by
  refine ⟨rfl, by decide, by norm_num, by norm_num,
    claim_C3_diagnostics id id id id qArg 2 2 rfl (by decide) (by norm_num) 0
      (by norm_num), ?_, ?_⟩
  · rw [Run_saveMean]
    norm_num [Mof, qArg, meanOf, rowAccum, Nof,
      show List.range (Int.toNat 2) = [0, 1] from rfl, List.foldl]
  · rw [Run_saveInvStd]
    norm_num [Mof, qArg, divisorOf, varOf, meanOf, rowAccum, Nof,
      show List.range (Int.toNat 2) = [0, 1] from rfl, List.foldl]

/-- C1: for every validator-accepted argument of shape `(M, N)` with
`N ≥ 1`, `Run` writes at every `m < M`, `n < N` the value
`convert-to-output-storage(postOp(((x - mean) * invStd) * scale + shift))`,
where `x`, `scale`, `shift` are the argument's stored elements converted to
compute precision on read, `mean` is the arithmetic mean of the converted
row and `invStd = 1 / sqrt(variance + epsilon)` with the row variance by
the uncentered formula; all intermediate arithmetic is in `C`.  (The
witness instantiates the concrete scenario `M=1`, `N=4`, row `[1,2,3,4]`.) -/
theorem claim_C1_output_formula [LinearOrderedField C]
    (convXC : X → C) (convCY : C → Y) (convCS : C → S) (sqrt : C → C)
    (a : Argument X Y S C) (M N : Nat)
    (hL : a.lengths = [(M : Int), (N : Int)])
    (hsup : IsSupportedArgument a = true) (hN : 1 ≤ N)
    (m n : Nat) (hm : m < M) (hn : n < N) :
    (Run convXC convCY convCS sqrt a).1.y_m_n m n =
      convCY (a.y_elementwise_op
        ((convXC (a.x_m_n m n)
            - (∑ i ∈ Finset.range N, convXC (a.x_m_n m i)) / (N : C))
          * (1 / sqrt
              ((∑ i ∈ Finset.range N, convXC (a.x_m_n m i) * convXC (a.x_m_n m i)) / (N : C)
                - ((∑ i ∈ Finset.range N, convXC (a.x_m_n m i)) / (N : C))
                  * ((∑ i ∈ Finset.range N, convXC (a.x_m_n m i)) / (N : C))
                + a.epsilon))
          * convXC (a.gamma_n n) + convXC (a.beta_n n))) := by
  have hMm : m < (Mof a).toNat := by rw [Mof_toNat a M N hL]; exact hm
  have hNn : n < (Nof a).toNat := by rw [Nof_toNat a M N hL]; exact hn
  rw [Run_y, if_pos ⟨hMm, hNn⟩]
  unfold yValOf divisorOf varOf meanOf
  rw [rowAccum_eq_sum, Nof_toNat a M N hL, Nof_cast a M N hL]

/-- The concrete scenario of the spec: shape (1, 4), input row
`[1, 2, 3, 4]`, scale all ones, shift all zeros, identity post-op,
`epsilon = 1e-5`; all storage types equal to the compute field, identity
storage conversions. -/
def scnArg (C : Type) [LinearOrderedField C] : Argument C C C C :=
  ⟨fun _ n => (n : C) + 1, fun _ => 1, fun _ => 0,
   fun _ _ => 9, fun _ => 9, fun _ => 9, id, [1, 4], [1], 1/100000⟩

/-- Witness for C1: the formula theorem applied to the spec's concrete
scenario, together with the numbers the claim predicts there: mean `2.5`,
variance `1.25`, inverse std within `1/1000` of `0.8944`, and outputs
within `1/1000` of `[-1.3416, -0.4472, 0.4472, 1.3416]`. -/
theorem claim_C1_witness :
    (scnArg ℝ).lengths = [(1 : Int), (4 : Int)] ∧
    IsSupportedArgument (scnArg ℝ) = true ∧
    (1 : ℕ) ≤ 4 ∧ (0 : ℕ) < 1 ∧ (0 : ℕ) < 4 ∧
    (Run (id : ℝ → ℝ) id id Real.sqrt (scnArg ℝ)).1.y_m_n 0 0 =
      id ((scnArg ℝ).y_elementwise_op
        ((id ((scnArg ℝ).x_m_n 0 0)
            - (∑ i ∈ Finset.range 4, id ((scnArg ℝ).x_m_n 0 i)) / (4 : ℝ))
          * (1 / Real.sqrt
              ((∑ i ∈ Finset.range 4,
                  id ((scnArg ℝ).x_m_n 0 i) * id ((scnArg ℝ).x_m_n 0 i)) / (4 : ℝ)
                - ((∑ i ∈ Finset.range 4, id ((scnArg ℝ).x_m_n 0 i)) / (4 : ℝ))
                  * ((∑ i ∈ Finset.range 4, id ((scnArg ℝ).x_m_n 0 i)) / (4 : ℝ))
                + (scnArg ℝ).epsilon))
          * id ((scnArg ℝ).gamma_n 0) + id ((scnArg ℝ).beta_n 0))) ∧
    meanOf (id : ℝ → ℝ) (scnArg ℝ) 0 = 2.5 ∧
    varOf (id : ℝ → ℝ) (scnArg ℝ) 0 = 1.25 ∧
    |divisorOf (id : ℝ → ℝ) Real.sqrt (scnArg ℝ) 0 - 0.8944| < 1/1000 ∧
    |(Run (id : ℝ → ℝ) id id Real.sqrt (scnArg ℝ)).1.y_m_n 0 0 - (-1.3416)| < 1/1000 ∧
    |(Run (id : ℝ → ℝ) id id Real.sqrt (scnArg ℝ)).1.y_m_n 0 1 - (-0.4472)| < 1/1000 ∧
    |(Run (id : ℝ → ℝ) id id Real.sqrt (scnArg ℝ)).1.y_m_n 0 2 - 0.4472| < 1/1000 ∧
    |(Run (id : ℝ → ℝ) id id Real.sqrt (scnArg ℝ)).1.y_m_n 0 3 - 1.3416| < 1/1000 := by
  have hmean : meanOf (id : ℝ → ℝ) (scnArg ℝ) 0 = 2.5 := by
    norm_num [meanOf, rowAccum, Nof, scnArg,
      show List.range (Int.toNat 4) = [0, 1, 2, 3] from rfl, List.foldl]
  have hvar : varOf (id : ℝ → ℝ) (scnArg ℝ) 0 = 1.25 := by
    norm_num [varOf, meanOf, rowAccum, Nof, scnArg,
      show List.range (Int.toNat 4) = [0, 1, 2, 3] from rfl, List.foldl]
  have hveps : varOf (id : ℝ → ℝ) (scnArg ℝ) 0 + (scnArg ℝ).epsilon =
      125001/100000 := by
    rw [hvar]
    norm_num [scnArg]
  have hdeq : divisorOf (id : ℝ → ℝ) Real.sqrt (scnArg ℝ) 0 =
      1 / Real.sqrt (125001/100000) := by
    unfold divisorOf; rw [hveps]
  have hs1 : Real.sqrt (125001/100000) < 1.1181 := by
    rw [Real.sqrt_lt' (by norm_num)]; norm_num
  have hs2 : (1.118 : ℝ) < Real.sqrt (125001/100000) := by
    rw [Real.lt_sqrt (by norm_num)]; norm_num
  have hspos : (0 : ℝ) < Real.sqrt (125001/100000) :=
    lt_trans (by norm_num) hs2
  have hdlo : (1 : ℝ)/1.1181 < divisorOf (id : ℝ → ℝ) Real.sqrt (scnArg ℝ) 0 := by
    rw [hdeq]; exact one_div_lt_one_div_of_lt hspos hs1
  have hdhi : divisorOf (id : ℝ → ℝ) Real.sqrt (scnArg ℝ) 0 < 1/1.118 := by
    rw [hdeq]; exact one_div_lt_one_div_of_lt (by norm_num) hs2
  have hdlo2 : (0.8943 : ℝ) < divisorOf (id : ℝ → ℝ) Real.sqrt (scnArg ℝ) 0 := by
    have h9 : (0.8943 : ℝ) < 1/1.1181 := by norm_num
    linarith
  have hdhi2 : divisorOf (id : ℝ → ℝ) Real.sqrt (scnArg ℝ) 0 < 0.8945 := by
    have h9 : (1 : ℝ)/1.118 < 0.8945 := by norm_num
    linarith
  have hM0 : (0 : ℕ) < (Mof (scnArg ℝ)).toNat := by
    rw [show (Mof (scnArg ℝ)).toNat = 1 from rfl]
    norm_num
  have hNj : ∀ j : ℕ, j < 4 → j < (Nof (scnArg ℝ)).toNat := by
    intro j hj
    rw [show (Nof (scnArg ℝ)).toNat = 4 from rfl]
    exact hj
  have hy : ∀ j, j < 4 →
      (Run (id : ℝ → ℝ) id id Real.sqrt (scnArg ℝ)).1.y_m_n 0 j =
        ((j : ℝ) + 1 - 2.5) * divisorOf (id : ℝ → ℝ) Real.sqrt (scnArg ℝ) 0 := by
    intro j hj
    rw [Run_y, if_pos ⟨hM0, hNj j hj⟩]
    simp only [yValOf, id_eq]
    rw [hmean]
    have hgamma : (scnArg ℝ).gamma_n j = 1 := rfl
    have hbeta : (scnArg ℝ).beta_n j = 0 := rfl
    have hx : (scnArg ℝ).x_m_n 0 j = (j : ℝ) + 1 := rfl
    have hop : ∀ z : ℝ, (scnArg ℝ).y_elementwise_op z = z := fun z => rfl
    rw [hgamma, hbeta, hx, hop]
    ring
  refine ⟨rfl, by decide, by norm_num, by norm_num, by norm_num,
    claim_C1_output_formula id id id Real.sqrt (scnArg ℝ) 1 4 rfl (by decide)
      (by norm_num) 0 0 (by norm_num) (by norm_num),
    hmean, hvar, ?_, ?_, ?_, ?_, ?_⟩
  · rw [abs_lt]; constructor <;> linarith
  · rw [hy 0 (by norm_num)]
    rw [abs_lt]; push_cast; constructor <;> nlinarith
  · rw [hy 1 (by norm_num)]
    rw [abs_lt]; push_cast; constructor <;> nlinarith
  · rw [hy 2 (by norm_num)]
    rw [abs_lt]; push_cast; constructor <;> nlinarith
  · rw [hy 3 (by norm_num)]
    rw [abs_lt]; push_cast; constructor <;> nlinarith

/-- The per-row quantities of the two passes depend only on the input row
(as converted values), the reduced extent and epsilon. -/
theorem rowStats_congr [LinearOrderedField C] (convXC : X → C) (sqrt : C → C)
    (a1 a2 : Argument X Y S C) (m1 m2 : Nat)
    (hlen : a2.lengths = a1.lengths) (heps : a2.epsilon = a1.epsilon)
    (hrow : ∀ n, convXC (a2.x_m_n m2 n) = convXC (a1.x_m_n m1 n)) :
    meanOf convXC a2 m2 = meanOf convXC a1 m1 ∧
    varOf convXC a2 m2 = varOf convXC a1 m1 ∧
    divisorOf convXC sqrt a2 m2 = divisorOf convXC sqrt a1 m1 := by
  have hN : Nof a2 = Nof a1 := by unfold Nof; rw [hlen]
  have hrw : ∀ k, rowAccum convXC a2 m2 k = rowAccum convXC a1 m1 k := by
    intro k
    exact rowAccum_congr convXC a1 a2 m1 m2 k (fun n _ => hrow n)
  have hmean : meanOf convXC a2 m2 = meanOf convXC a1 m1 := by
    unfold meanOf; rw [hN, hrw]
  have hvar : varOf convXC a2 m2 = varOf convXC a1 m1 := by
    unfold varOf; rw [hN, hrw, hmean]
  have hdiv : divisorOf convXC sqrt a2 m2 = divisorOf convXC sqrt a1 m1 := by
    unfold divisorOf; rw [hvar, heps]
  exact ⟨hmean, hvar, hdiv⟩

/-- The written output element depends only on the input row, the shared
scale/shift/post-op, the reduced extent and epsilon. -/
theorem yValOf_congr [LinearOrderedField C] (convXC : X → C) (sqrt : C → C)
    (a1 a2 : Argument X Y S C) (m1 m2 : Nat)
    (hlen : a2.lengths = a1.lengths) (heps : a2.epsilon = a1.epsilon)
    (hg : a2.gamma_n = a1.gamma_n) (hb : a2.beta_n = a1.beta_n)
    (hop : a2.y_elementwise_op = a1.y_elementwise_op)
    (hrow : ∀ n, convXC (a2.x_m_n m2 n) = convXC (a1.x_m_n m1 n)) (n : Nat) :
    yValOf convXC sqrt a2 m2 n = yValOf convXC sqrt a1 m1 n := by
  obtain ⟨hmean, hvar, hdiv⟩ :=
    rowStats_congr convXC sqrt a1 a2 m1 m2 hlen heps hrow
  unfold yValOf
  rw [hrow n, hg, hb, hop, hmean, hdiv]

/-- C8: `Run` never modifies the input, scale or shift data, and there is
no partial-failure state: every output element with `m < M`, `n < N` and
every diagnostic entry with `m < M` is written - the values there do not
depend on the previous contents of the output and diagnostic tensors (here
`a2` is `a` with arbitrary other initial contents of the three mutable
tensors), so all of them have been overwritten when `Run` returns. -/
theorem claim_C8_readonly_and_full_write [LinearOrderedField C]
    (convXC : X → C) (convCY : C → Y) (convCS : C → S) (sqrt : C → C)
    (a a2 : Argument X Y S C) (M N : Nat)
    (hL : a.lengths = [(M : Int), (N : Int)])
    (hsup : IsSupportedArgument a = true)
    (hx : a2.x_m_n = a.x_m_n) (hg : a2.gamma_n = a.gamma_n)
    (hb : a2.beta_n = a.beta_n) (hop : a2.y_elementwise_op = a.y_elementwise_op)
    (hlen : a2.lengths = a.lengths) (heps : a2.epsilon = a.epsilon) :
    ((Run convXC convCY convCS sqrt a).1.x_m_n = a.x_m_n ∧
      (Run convXC convCY convCS sqrt a).1.gamma_n = a.gamma_n ∧
      (Run convXC convCY convCS sqrt a).1.beta_n = a.beta_n) ∧
    (∀ m n, m < M → n < N →
      (Run convXC convCY convCS sqrt a2).1.y_m_n m n =
        (Run convXC convCY convCS sqrt a).1.y_m_n m n) ∧
    (∀ m, m < M →
      (Run convXC convCY convCS sqrt a2).1.save_mean_m m =
          (Run convXC convCY convCS sqrt a).1.save_mean_m m ∧
        (Run convXC convCY convCS sqrt a2).1.save_inv_std_m m =
          (Run convXC convCY convCS sqrt a).1.save_inv_std_m m) := by
  obtain ⟨hfx, hfg, hfb, _, _, _, _⟩ := Run_frame convXC convCY convCS sqrt a
  have hM2 : (Mof a2).toNat = M := by
    unfold Mof; rw [hlen]; exact Mof_toNat a M N hL
  have hN2 : (Nof a2).toNat = N := by
    unfold Nof; rw [hlen]; exact Nof_toNat a M N hL
  have hM1 : (Mof a).toNat = M := Mof_toNat a M N hL
  have hN1 : (Nof a).toNat = N := Nof_toNat a M N hL
  have hcong : ∀ m n, yValOf convXC sqrt a2 m n = yValOf convXC sqrt a m n := by
    intro m n
    exact yValOf_congr convXC sqrt a a2 m m hlen heps hg hb hop
      (fun i => by rw [hx]) n
  have hstats : ∀ m, meanOf convXC a2 m = meanOf convXC a m ∧
      varOf convXC a2 m = varOf convXC a m ∧
      divisorOf convXC sqrt a2 m = divisorOf convXC sqrt a m := by
    intro m
    exact rowStats_congr convXC sqrt a a2 m m hlen heps (fun i => by rw [hx])
  refine ⟨⟨hfx, hfg, hfb⟩, ?_, ?_⟩
  · intro m n hm hn
    rw [Run_y, Run_y, hM1, hN1, hM2, hN2, if_pos ⟨hm, hn⟩, if_pos ⟨hm, hn⟩,
      hcong]
  · intro m hm
    constructor
    · rw [Run_saveMean, Run_saveMean, hM1, hM2, if_pos hm, if_pos hm,
        (hstats m).1]
    · rw [Run_saveInvStd, Run_saveInvStd, hM1, hM2, if_pos hm, if_pos hm,
        (hstats m).2.2]

/-- A copy of `qArg` whose mutable tensors start with different contents. -/
def qArgAlt : Argument ℚ ℚ ℚ ℚ :=
  ⟨fun m n => (m : ℚ) + 2 * n + 1, fun _ => 1, fun _ => 0,
   fun _ _ => 5, fun _ => 6, fun _ => 7, id, [2, 2], [1], 1/4⟩

/-- Witness for C8 at `qArg` against the alternative initial contents of
`qArgAlt`. -/
theorem claim_C8_witness :
    qArg.lengths = [(2 : Int), (2 : Int)] ∧ IsSupportedArgument qArg = true ∧
    (((Run (id : ℚ → ℚ) id id id qArg).1.x_m_n = qArg.x_m_n ∧
        (Run (id : ℚ → ℚ) id id id qArg).1.gamma_n = qArg.gamma_n ∧
        (Run (id : ℚ → ℚ) id id id qArg).1.beta_n = qArg.beta_n) ∧
      (∀ m n, m < 2 → n < 2 →
        (Run (id : ℚ → ℚ) id id id qArgAlt).1.y_m_n m n =
          (Run (id : ℚ → ℚ) id id id qArg).1.y_m_n m n) ∧
      (∀ m, m < 2 →
        (Run (id : ℚ → ℚ) id id id qArgAlt).1.save_mean_m m =
            (Run (id : ℚ → ℚ) id id id qArg).1.save_mean_m m ∧
          (Run (id : ℚ → ℚ) id id id qArgAlt).1.save_inv_std_m m =
            (Run (id : ℚ → ℚ) id id id qArg).1.save_inv_std_m m)) :=
  ⟨rfl, by decide,
    claim_C8_readonly_and_full_write id id id id qArg qArgAlt 2 2 rfl
      (by decide) rfl rfl rfl rfl rfl rfl⟩

/-- C6: the computation commutes with row permutation.  If `a2`'s input
carries at row `p m` the contents of `a1`'s row `m` (for `p` mapping rows
below `M` to rows below `M`; in particular for every permutation of
`0 .. M-1`), and scale, shift, post-op, shape and epsilon agree, then after
running both, `a2`'s output row `p m`, saved mean `p m` and saved inverse
std `p m` equal `a1`'s at `m`. -/
theorem claim_C6_row_permutation [LinearOrderedField C]
    (convXC : X → C) (convCY : C → Y) (convCS : C → S) (sqrt : C → C)
    (a1 a2 : Argument X Y S C) (M N : Nat) (p : Nat → Nat)
    (hL : a1.lengths = [(M : Int), (N : Int)])
    (hsup : IsSupportedArgument a1 = true)
    (hlen : a2.lengths = a1.lengths) (heps : a2.epsilon = a1.epsilon)
    (hg : a2.gamma_n = a1.gamma_n) (hb : a2.beta_n = a1.beta_n)
    (hop : a2.y_elementwise_op = a1.y_elementwise_op)
    (hp : ∀ i, i < M → p i < M)
    (hx : ∀ i, i < M → ∀ n, a2.x_m_n (p i) n = a1.x_m_n i n) :
    ∀ m, m < M →
      (∀ n, n < N →
        (Run convXC convCY convCS sqrt a2).1.y_m_n (p m) n =
          (Run convXC convCY convCS sqrt a1).1.y_m_n m n) ∧
      (Run convXC convCY convCS sqrt a2).1.save_mean_m (p m) =
        (Run convXC convCY convCS sqrt a1).1.save_mean_m m ∧
      (Run convXC convCY convCS sqrt a2).1.save_inv_std_m (p m) =
        (Run convXC convCY convCS sqrt a1).1.save_inv_std_m m := by
  have hM2 : (Mof a2).toNat = M := by
    unfold Mof; rw [hlen]; exact Mof_toNat a1 M N hL
  have hN2 : (Nof a2).toNat = N := by
    unfold Nof; rw [hlen]; exact Nof_toNat a1 M N hL
  have hM1 : (Mof a1).toNat = M := Mof_toNat a1 M N hL
  have hN1 : (Nof a1).toNat = N := Nof_toNat a1 M N hL
  intro m hm
  have hrow : ∀ n, convXC (a2.x_m_n (p m) n) = convXC (a1.x_m_n m n) := by
    intro n; rw [hx m hm n]
  obtain ⟨hmean, hvar, hdiv⟩ :=
    rowStats_congr convXC sqrt a1 a2 m (p m) hlen heps hrow
  refine ⟨?_, ?_, ?_⟩
  · intro n hn
    rw [Run_y, Run_y, hM1, hN1, hM2, hN2,
      if_pos ⟨hp m hm, hn⟩, if_pos ⟨hm, hn⟩,
      yValOf_congr convXC sqrt a1 a2 m (p m) hlen heps hg hb hop hrow n]
  · rw [Run_saveMean, Run_saveMean, hM1, hM2,
      if_pos (hp m hm), if_pos hm, hmean]
  · rw [Run_saveInvStd, Run_saveInvStd, hM1, hM2,
      if_pos (hp m hm), if_pos hm, hdiv]

/-- `qArg` with its two rows swapped. -/
def qArgSwapped : Argument ℚ ℚ ℚ ℚ :=
  ⟨fun m n => ((1 - m : Nat) : ℚ) + 2 * n + 1, fun _ => 1, fun _ => 0,
   fun _ _ => 9, fun _ => 9, fun _ => 9, id, [2, 2], [1], 1/4⟩

/-- Witness for C6: swapping the two rows of `qArg` (permutation
`p i = 1 - i`) moves each row's results with it. -/
theorem claim_C6_witness :
    qArg.lengths = [(2 : Int), (2 : Int)] ∧ IsSupportedArgument qArg = true ∧
    (∀ i, i < 2 → 1 - i < 2) ∧
    (∀ i, i < 2 → ∀ n, qArgSwapped.x_m_n (1 - i) n = qArg.x_m_n i n) ∧
    ((∀ n, n < 2 →
        (Run (id : ℚ → ℚ) id id id qArgSwapped).1.y_m_n (1 - 0) n =
          (Run (id : ℚ → ℚ) id id id qArg).1.y_m_n 0 n) ∧
      (Run (id : ℚ → ℚ) id id id qArgSwapped).1.save_mean_m (1 - 0) =
        (Run (id : ℚ → ℚ) id id id qArg).1.save_mean_m 0 ∧
      (Run (id : ℚ → ℚ) id id id qArgSwapped).1.save_inv_std_m (1 - 0) =
        (Run (id : ℚ → ℚ) id id id qArg).1.save_inv_std_m 0) := by
  have hx : ∀ i, i < 2 → ∀ n, qArgSwapped.x_m_n (1 - i) n = qArg.x_m_n i n := by
    intro i hi n
    interval_cases i <;> rfl
  exact ⟨rfl, by decide, by omega, hx,
    claim_C6_row_permutation id id id id qArg qArgSwapped 2 2 (fun i => 1 - i)
      rfl (by decide) rfl rfl rfl rfl rfl (fun i hi => by show 1 - i < 2; omega)
      hx 0 (by norm_num)⟩

/-- On a constant row the pass-1 mean is the constant and the uncentered
variance is exactly zero (in exact compute arithmetic). -/
theorem meanVar_const_row [LinearOrderedField C] (convXC : X → C)
    (a : Argument X Y S C) (M N : Nat) (m : Nat) (c : C)
    (hL : a.lengths = [(M : Int), (N : Int)]) (hN : 1 ≤ N)
    (hconst : ∀ n, n < N → convXC (a.x_m_n m n) = c) :
    meanOf convXC a m = c ∧ varOf convXC a m = 0 := by
  have hNne : ((N : Nat) : C) ≠ 0 := Nat.cast_ne_zero.mpr (by omega)
  have hsum : ∑ n ∈ Finset.range N, convXC (a.x_m_n m n) = (N : C) * c := by
    rw [Finset.sum_congr rfl (fun n hn => hconst n (Finset.mem_range.mp hn))]
    rw [Finset.sum_const, Finset.card_range, nsmul_eq_mul]
  have hsq : ∑ n ∈ Finset.range N, convXC (a.x_m_n m n) * convXC (a.x_m_n m n) =
      (N : C) * (c * c) := by
    rw [Finset.sum_congr rfl (fun n hn => by
      rw [hconst n (Finset.mem_range.mp hn)])]
    rw [Finset.sum_const, Finset.card_range, nsmul_eq_mul]
  have hmean : meanOf convXC a m = c := by
    unfold meanOf
    rw [rowAccum_eq_sum, Nof_toNat a M N hL, Nof_cast a M N hL, hsum]
    field_simp
  refine ⟨hmean, ?_⟩
  unfold varOf
  rw [rowAccum_eq_sum, Nof_toNat a M N hL, Nof_cast a M N hL, hsq, hmean]
  field_simp

/-- C7: for a constant-valued row and `0 < e1 < e2`, running with epsilon
`e2` produces a saved inverse standard deviation of strictly smaller
magnitude than running with epsilon `e1` on the otherwise identical
argument.  (`a2` is `a1` with only the epsilon changed.) -/
theorem claim_C7_epsilon_sensitivity
    (a1 a2 : Argument ℝ ℝ ℝ ℝ) (M N : Nat) (m : Nat) (c e1 e2 : ℝ)
    (hL : a1.lengths = [(M : Int), (N : Int)])
    (hlen : a2.lengths = a1.lengths) (hx : a2.x_m_n = a1.x_m_n)
    (hconst : ∀ n, n < N → a1.x_m_n m n = c)
    (he1 : a1.epsilon = e1) (he2 : a2.epsilon = e2)
    (h0 : 0 < e1) (h12 : e1 < e2) (hN : 1 ≤ N) (hm : m < M) :
    |(Run (id : ℝ → ℝ) id id Real.sqrt a2).1.save_inv_std_m m| <
      |(Run (id : ℝ → ℝ) id id Real.sqrt a1).1.save_inv_std_m m| := by
  have hM1 : (Mof a1).toNat = M := Mof_toNat a1 M N hL
  have hM2 : (Mof a2).toNat = M := by
    unfold Mof; rw [hlen]; exact Mof_toNat a1 M N hL
  have hL2 : a2.lengths = [(M : Int), (N : Int)] := by rw [hlen, hL]
  have hvar1 : varOf (id : ℝ → ℝ) a1 m = 0 :=
    (meanVar_const_row id a1 M N m c hL hN
      (fun n hn => by rw [id_eq, hconst n hn])).2
  have hvar2 : varOf (id : ℝ → ℝ) a2 m = 0 :=
    (meanVar_const_row id a2 M N m c hL2 hN
      (fun n hn => by rw [id_eq, hx, hconst n hn])).2
  have hd1 : divisorOf (id : ℝ → ℝ) Real.sqrt a1 m = 1 / Real.sqrt e1 := by
    unfold divisorOf; rw [hvar1, he1, zero_add]
  have hd2 : divisorOf (id : ℝ → ℝ) Real.sqrt a2 m = 1 / Real.sqrt e2 := by
    unfold divisorOf; rw [hvar2, he2, zero_add]
  rw [Run_saveInvStd, Run_saveInvStd, hM1, hM2, if_pos hm, if_pos hm,
    id_eq, id_eq, hd1, hd2]
  have hs1 : (0 : ℝ) < Real.sqrt e1 := Real.sqrt_pos.mpr h0
  have hs2 : (0 : ℝ) < Real.sqrt e2 := Real.sqrt_pos.mpr (lt_trans h0 h12)
  have hlt : Real.sqrt e1 < Real.sqrt e2 := Real.sqrt_lt_sqrt h0.le h12
  rw [abs_of_pos (by positivity), abs_of_pos (by positivity)]
  exact one_div_lt_one_div_of_lt hs1 hlt

/-- A constant-row argument of shape (1, 1), row value 3, with a chosen
epsilon. -/
def cArg (C : Type) [LinearOrderedField C] (e : C) : Argument C C C C :=
  ⟨fun _ _ => 3, fun _ => 1, fun _ => 0,
   fun _ _ => 9, fun _ => 9, fun _ => 9, id, [1, 1], [1], e⟩

/-- Witness for C7: constant row `[3]`, epsilons 1 and 4. -/
theorem claim_C7_witness :
    (cArg ℝ 1).lengths = [(1 : Int), (1 : Int)] ∧
    (∀ n, n < 1 → (cArg ℝ 1).x_m_n 0 n = 3) ∧
    (0 : ℝ) < 1 ∧ (1 : ℝ) < 4 ∧ (1 : ℕ) ≤ 1 ∧ (0 : ℕ) < 1 ∧
    |(Run (id : ℝ → ℝ) id id Real.sqrt (cArg ℝ 4)).1.save_inv_std_m 0| <
      |(Run (id : ℝ → ℝ) id id Real.sqrt (cArg ℝ 1)).1.save_inv_std_m 0| :=
  ⟨rfl, fun n _ => rfl, by norm_num, by norm_num, le_refl 1, by norm_num,
    claim_C7_epsilon_sensitivity (cArg ℝ 1) (cArg ℝ 4) 1 1 0 3 1 4 rfl rfl rfl
      (fun n _ => rfl) rfl rfl (by norm_num) (by norm_num) (le_refl 1)
      (by norm_num)⟩

/-- C10: the polymorphic `Run` overload and `IsSupportedArgument` downcast
the base-argument handle with `dynamic_cast` and use the result with no
null check.  When the handle refers to this operator's own `Argument`, the
failure branch is unreachable and the typed code runs; when it refers to
any other concrete argument type, neither function returns `false` or an
error value - the null dereference is undefined behavior, rendered `none`
in the embedding. -/
theorem claim_C10_downcast_no_null_check [LinearOrderedField C]
    (convXC : X → C) (convCY : C → Y) (convCS : C → S) (sqrt : C → C) :
    (∀ a : Argument X Y S C,
        IsSupportedArgumentPoly (BaseArgument.ofArgument a) =
            some (IsSupportedArgument a) ∧
        RunPoly convXC convCY convCS sqrt (BaseArgument.ofArgument a) =
            some (Run convXC convCY convCS sqrt a)) ∧
    IsSupportedArgumentPoly
        (BaseArgument.otherConcrete : BaseArgument X Y S C) = none ∧
    RunPoly convXC convCY convCS sqrt
        (BaseArgument.otherConcrete : BaseArgument X Y S C) = none ∧
    (∀ b : Bool,
        IsSupportedArgumentPoly
            (BaseArgument.otherConcrete : BaseArgument X Y S C) ≠ some b) := by
  refine ⟨fun a => ⟨rfl, rfl⟩, rfl, rfl, ?_⟩
  intro b
  simp [IsSupportedArgumentPoly, dynCastArgument]

/-- The conversion of a rational caller element into an integer-valued
storage type: a stand-in for a lossy `ck::type_convert` between two
distinct storage precisions. -/
def ratToInt : ℚ → ℤ := fun q => ⌊q⌋

/-- Reading the integer-valued storage type into rational compute
precision. -/
def intToRat : ℤ → ℚ := fun z => (z : ℚ)

/-- C5 failing input: integer x-storage, rational scale/shift storage and
compute type; shape (1, 1), x = [[0]], caller scale = [1], caller shift =
[1/2], epsilon = 1, identity post-op.  Constructing the `Argument` stores
the shift through the x-storage type, where `1/2` becomes `0`. -/
def c5Arg : Argument ℤ ℚ ℚ ℚ :=
  mkArgument ratToInt ratToInt (fun _ _ => 0) (fun _ => 1) (fun _ => 1/2)
    (fun _ _ => 9) (fun _ => 9) (fun _ => 9) id [1, 1] [1] 1

/-- C5 fails on the code: because the `Argument` members `gamma_n_` and
`beta_n_` are declared `Tensor<XDataType>` (lines 59-61) although the
constructor receives `Tensor<GammaDataType>` and `Tensor<BetaDataType>`,
scale and shift pass through the x-storage type on the way to compute
precision.  At the failing input the code writes `0` to `output[0,0]`,
while the spec's direct-conversion reading (`yValSpecDirect`, and the
constructor's own declared parameter types) gives `1/2`. -/
theorem claim_C5_shift_converted_through_x_storage :
    (Run intToRat id id id c5Arg).1.y_m_n 0 0 = 0 ∧
    yValSpecDirect intToRat id id id c5Arg
      (fun _ => 1) (fun _ => (1/2 : ℚ)) 0 0 = 1/2 ∧
    (0 : ℚ) ≠ 1/2 := by
  have hfloor : (⌊(1/2 : ℚ)⌋ : ℤ) = 0 := by
    rw [Int.floor_eq_iff] <;> norm_num
  have hone : (⌊(1 : ℚ)⌋ : ℤ) = 1 := Int.floor_one
  refine ⟨?_, ?_, by norm_num⟩
  · have hM : (0 : ℕ) < (Mof c5Arg).toNat := by
      rw [show (Mof c5Arg).toNat = 1 from rfl]; norm_num
    have hN : (0 : ℕ) < (Nof c5Arg).toNat := by
      rw [show (Nof c5Arg).toNat = 1 from rfl]; norm_num
    rw [Run_y, if_pos ⟨hM, hN⟩]
    norm_num [yValOf, meanOf, varOf, divisorOf, rowAccum, Nof, c5Arg,
      mkArgument, intToRat, ratToInt, hfloor, hone,
      show List.range (Int.toNat 1) = [0] from rfl, List.foldl]
  · norm_num [yValSpecDirect, meanOf, varOf, divisorOf, rowAccum, Nof, c5Arg,
      mkArgument, intToRat, ratToInt, hfloor, hone,
      show List.range (Int.toNat 1) = [0] from rfl, List.foldl]

end RefLayernorm
